import Mathlib

/-!
Verification of the pyon messaging substrate against its specification.

Shallow embedding of three source files:
- pyon/event/event.py: topic construction for publishers and subscribers and
  the event-repository query router (find_events);
- pyon/net/messaging.py: the blocking Node (NodeB) with its bidirectional
  channel pool and the non-blocking Node (NodeNB);
- pyon/datastore/couchdb/couchdb_datastore.py: document reads and queries
  with their error surfacing.

Python dicts are modelled as association lists, optional arguments as Option,
Python truthiness of optional strings explicitly. The identifier pool
(pyon.util.pool.IDPool) and the amqp.Node base class are not part of the
sources; they are modelled from the specification where noted.
-/

namespace Pyon

/-! ## Association-list helpers (model of Python dicts) -/

/-- Keys of an association list, in insertion order. -/
def keys {κ α : Type} (l : List (κ × α)) : List κ := l.map Prod.fst

/-- Values of an association list, in insertion order. -/
def vals {κ α : Type} (l : List (κ × α)) : List α := l.map Prod.snd

/-- Dictionary lookup: d[k] when present, none otherwise (as dict.get). -/
def alookup {κ α : Type} [DecidableEq κ] : List (κ × α) → κ → Option α
  | [], _ => none
  | (k, v) :: t, k0 => if k = k0 then some v else alookup t k0

/-- Dictionary assignment d[k] = v: replaces in place if the key exists,
appends otherwise (Python dicts keep the original position on overwrite). -/
def mapSet {κ α : Type} [DecidableEq κ] : List (κ × α) → κ → α → List (κ × α)
  | [], k0, v0 => [(k0, v0)]
  | (k, v) :: t, k0, v0 => if k = k0 then (k0, v0) :: t else (k, v) :: mapSet t k0 v0

/-- Dictionary deletion d.pop(k): removes the entry with the given key. -/
def removeKey {κ α : Type} [DecidableEq κ] : List (κ × α) → κ → List (κ × α)
  | [], _ => []
  | (k, v) :: t, k0 => if k = k0 then t else (k, v) :: removeKey t k0

@[simp] theorem keys_nil {κ α : Type} : keys ([] : List (κ × α)) = [] := rfl

@[simp] theorem keys_cons {κ α : Type} (p : κ × α) (t : List (κ × α)) :
    keys (p :: t) = p.1 :: keys t := rfl

@[simp] theorem keys_append {κ α : Type} (l1 l2 : List (κ × α)) :
    keys (l1 ++ l2) = keys l1 ++ keys l2 := by simp [keys]

@[simp] theorem vals_nil {κ α : Type} : vals ([] : List (κ × α)) = [] := rfl

@[simp] theorem vals_cons {κ α : Type} (p : κ × α) (t : List (κ × α)) :
    vals (p :: t) = p.2 :: vals t := rfl

@[simp] theorem vals_append {κ α : Type} (l1 l2 : List (κ × α)) :
    vals (l1 ++ l2) = vals l1 ++ vals l2 := by simp [vals]

theorem mem_keys_of_mem {κ α : Type} {l : List (κ × α)} {p : κ × α} (h : p ∈ l) :
    p.1 ∈ keys l := List.mem_map_of_mem Prod.fst h

theorem mem_vals_of_mem {κ α : Type} {l : List (κ × α)} {p : κ × α} (h : p ∈ l) :
    p.2 ∈ vals l := List.mem_map_of_mem Prod.snd h

theorem alookup_mem {κ α : Type} [DecidableEq κ] {l : List (κ × α)} {k : κ} {v : α}
    (h : alookup l k = some v) : (k, v) ∈ l := by
  induction l with
  | nil => simp [alookup] at h
  | cons p t ih =>
    obtain ⟨k1, v1⟩ := p
    by_cases hk : k1 = k
    · subst hk
      simp [alookup] at h
      simp [h]
    · simp [alookup, hk] at h
      exact List.mem_cons_of_mem _ (ih h)

theorem string_append_assoc : ∀ a b c : String, a ++ b ++ c = a ++ (b ++ c)
  | ⟨a⟩, ⟨b⟩, ⟨c⟩ => congrArg String.mk (List.append_assoc a b c)

theorem alookup_eq_none {κ α : Type} [DecidableEq κ] {l : List (κ × α)} {k : κ}
    (h : k ∉ keys l) : alookup l k = none := by
  induction l with
  | nil => rfl
  | cons p t ih =>
    obtain ⟨k1, v1⟩ := p
    rw [keys_cons, List.mem_cons] at h
    push_neg at h
    have hne : ¬k1 = k := fun hh => h.1 hh.symm
    simp [alookup, hne, ih h.2]

theorem alookup_isSome {κ α : Type} [DecidableEq κ] {l : List (κ × α)} {k : κ}
    (h : k ∈ keys l) : ∃ v, alookup l k = some v := by
  induction l with
  | nil => simp at h
  | cons p t ih =>
    obtain ⟨k1, v1⟩ := p
    by_cases hk : k1 = k
    · exact ⟨v1, by simp [alookup, hk]⟩
    · rw [keys_cons, List.mem_cons] at h
      rcases h with h | h
      · exact absurd h.symm hk
      · obtain ⟨v, hv⟩ := ih h
        exact ⟨v, by simp [alookup, hk, hv]⟩

theorem mapSet_not_mem {κ α : Type} [DecidableEq κ] {l : List (κ × α)} {k : κ} (v : α)
    (h : k ∉ keys l) : mapSet l k v = l ++ [(k, v)] := by
  induction l with
  | nil => rfl
  | cons p t ih =>
    obtain ⟨k1, v1⟩ := p
    rw [keys_cons, List.mem_cons] at h
    push_neg at h
    have hne : ¬k1 = k := fun hh => h.1 hh.symm
    simp [mapSet, hne, ih h.2]

theorem mem_mapSet {κ α : Type} [DecidableEq κ] {l : List (κ × α)} {k : κ} {v : α}
    {p : κ × α} (h : p ∈ mapSet l k v) : p ∈ l ∨ p = (k, v) := by
  induction l with
  | nil => simp [mapSet] at h; simp [h]
  | cons q t ih =>
    obtain ⟨k1, v1⟩ := q
    by_cases hk : k1 = k
    · simp [mapSet, hk] at h
      rcases h with h | h
      · exact Or.inr h
      · exact Or.inl (List.mem_cons_of_mem _ h)
    · simp [mapSet, hk] at h
      rcases h with h | h
      · exact Or.inl (by simp [h])
      · rcases ih h with h1 | h1
        · exact Or.inl (List.mem_cons_of_mem _ h1)
        · exact Or.inr h1

theorem removeKey_sublist {κ α : Type} [DecidableEq κ] (l : List (κ × α)) (k : κ) :
    (removeKey l k).Sublist l := by
  induction l with
  | nil => simp [removeKey]
  | cons p t ih =>
    obtain ⟨k1, v1⟩ := p
    by_cases hk : k1 = k
    · rw [removeKey, if_pos hk]
      exact List.sublist_cons_self _ _
    · rw [removeKey, if_neg hk]
      exact List.Sublist.cons₂ (k1, v1) ih

theorem mem_of_mem_removeKey {κ α : Type} [DecidableEq κ] {l : List (κ × α)} {k : κ}
    {p : κ × α} (h : p ∈ removeKey l k) : p ∈ l :=
  (removeKey_sublist l k).mem h

theorem mem_removeKey_of_ne {κ α : Type} [DecidableEq κ] {l : List (κ × α)} {k : κ}
    {p : κ × α} (hp : p ∈ l) (hne : p.1 ≠ k) : p ∈ removeKey l k := by
  induction l with
  | nil => simp at hp
  | cons q t ih =>
    obtain ⟨k1, v1⟩ := q
    by_cases hk : k1 = k
    · subst hk
      rcases List.mem_cons.mp hp with h | h
      · exact absurd (congrArg Prod.fst h) hne
      · simpa [removeKey] using h
    · rcases List.mem_cons.mp hp with h | h
      · simp [removeKey, hk, h]
      · simp [removeKey, hk]
        exact Or.inr (ih h)

theorem not_mem_keys_removeKey {κ α : Type} [DecidableEq κ] {l : List (κ × α)} {k : κ}
    (hnd : (keys l).Nodup) : k ∉ keys (removeKey l k) := by
  induction l with
  | nil => simp [removeKey]
  | cons p t ih =>
    obtain ⟨k1, v1⟩ := p
    rw [keys_cons, List.nodup_cons] at hnd
    by_cases hk : k1 = k
    · subst hk
      simpa [removeKey] using hnd.1
    · rw [removeKey, if_neg hk, keys_cons, List.mem_cons]
      push_neg
      exact ⟨fun h => hk h.symm, ih hnd.2⟩

theorem val_not_mem_vals_removeKey {κ α : Type} [DecidableEq κ] {l : List (κ × α)}
    {k : κ} {v : α} (hkn : (keys l).Nodup) (hvn : (vals l).Nodup) (hm : (k, v) ∈ l) :
    v ∉ vals (removeKey l k) := by
  induction l with
  | nil => simp at hm
  | cons p t ih =>
    obtain ⟨k1, v1⟩ := p
    rw [keys_cons, List.nodup_cons] at hkn
    rw [vals_cons, List.nodup_cons] at hvn
    by_cases hk : k1 = k
    · subst hk
      rcases List.mem_cons.mp hm with h | h
      · have hv : v1 = v := (Prod.mk.injEq .. ▸ h.symm).2
        subst hv
        simpa [removeKey] using hvn.1
      · exact absurd (mem_keys_of_mem h) hkn.1
    · rcases List.mem_cons.mp hm with h | h
      · exact absurd (congrArg Prod.fst h).symm hk
      · rw [removeKey, if_neg hk, vals_cons, List.mem_cons]
        push_neg
        refine ⟨fun hv => hvn.1 ?_, ih hkn.2 hvn.2 h⟩
        rw [← hv]
        exact mem_vals_of_mem h

theorem assoc_unique {κ α : Type} {l : List (κ × α)} {k : κ} {a b : α}
    (hnd : (keys l).Nodup) (ha : (k, a) ∈ l) (hb : (k, b) ∈ l) : a = b := by
  have := List.inj_on_of_nodup_map (f := Prod.fst) (l := l) hnd ha hb rfl
  exact congrArg Prod.snd this

theorem alookup_of_mem {κ α : Type} [DecidableEq κ] {l : List (κ × α)} {k : κ} {v : α}
    (hnd : (keys l).Nodup) (h : (k, v) ∈ l) : alookup l k = some v := by
  obtain ⟨w, hw⟩ := alookup_isSome (l := l) (k := k) (mem_keys_of_mem h)
  rw [hw]
  exact congrArg some (assoc_unique hnd (alookup_mem hw) h)

/-! ## pyon/event/event.py — topic construction -/

/-- Python truthiness of an optional string: None and the empty string are
falsy, every other string is truthy. -/
def truthyS : Option String → Bool
  | none => false
  | some s => !s.isEmpty

namespace EventPublisher

/-- EventPublisher.topic: asserts that both the event type and the origin are
truthy, then returns the dot-joined routing key. The failed assertion is
modelled as none. -/
def topic (event_type origin : Option String) : Option String :=
  if truthyS event_type && truthyS origin then
    some ((event_type.getD "") ++ "." ++ (origin.getD ""))
  else
    none

end EventPublisher

namespace EventSubscriber

/-- EventSubscriber.topic: a missing or falsy event type becomes the wildcard
star segment, a missing or falsy origin becomes the hash segment. -/
def topic (event_type origin : Option String) : String :=
  let et := if truthyS event_type then event_type.getD "" else "*"
  let o := if truthyS origin then origin.getD "" else "#"
  et ++ "." ++ o

end EventSubscriber

/-! ## pyon/event/event.py — EventRepository.find_events query routing -/

/-- The view query assembled by EventRepository.find_events and handed to the
datastore collaborator find_by_view: design document, view name, key bounds,
the effective limit, and whether the default-limit warning was logged. -/
structure FindEventsQuery where
  design_name : String
  view_name : String
  start_key : List String
  end_key : List String
  limit : Option Int
  warned : Bool
deriving DecidableEq, Repr

namespace EventRepository

/-- EventRepository.find_events: selects a view by first-match-wins precedence
over the truthiness of origin, event type and the time bounds, then appends
start_ts to the start key and end_ts to the end key when present. In the
unfiltered branch a missing limit reads as 0, and a limit below 1 is replaced
by 100 with a logged warning. Remaining keyword arguments (descending and the
like) pass through to the collaborator unchanged and are not modelled. -/
def find_events (event_type origin start_ts end_ts : Option String)
    (limit : Option Int) : FindEventsQuery :=
  let design_name := "event"
  let q :=
    if truthyS origin && truthyS event_type then
      { design_name, view_name := "by_origintype",
        start_key := [origin.getD "", event_type.getD ""],
        end_key := [origin.getD "", event_type.getD ""], limit, warned := false }
    else if truthyS origin then
      { design_name, view_name := "by_origin", start_key := [origin.getD ""],
        end_key := [origin.getD ""], limit, warned := false : FindEventsQuery }
    else if truthyS event_type then
      { design_name, view_name := "by_type", start_key := [event_type.getD ""],
        end_key := [event_type.getD ""], limit, warned := false }
    else if truthyS start_ts || truthyS end_ts then
      { design_name, view_name := "by_time", start_key := [], end_key := [],
        limit, warned := false }
    else if limit.getD 0 < 1 then
      { design_name, view_name := "by_time", start_key := [], end_key := [],
        limit := some 100, warned := true }
    else
      { design_name, view_name := "by_time", start_key := [], end_key := [],
        limit, warned := false }
  let q1 := if truthyS start_ts then
      { q with start_key := q.start_key ++ [start_ts.getD ""] } else q
  if truthyS end_ts then { q1 with end_key := q1.end_key ++ [end_ts.getD ""] } else q1

end EventRepository

/-- The suffix a time bound contributes to its key: a one-element list when
the bound is truthy, empty otherwise. -/
def tsKey (x : Option String) : List String := if truthyS x then [x.getD ""] else []

/-- C1: find_events selects exactly one view by first-match-wins precedence:
origin and event type select by_origintype with key origin-then-event-type;
origin only selects by_origin; event type only selects by_type; otherwise
by_time with empty key; and a supplied start_ts is appended to the start key
and a supplied end_ts to the end key in whichever branch was chosen. -/
theorem find_events_routing (event_type origin start_ts end_ts : Option String)
    (limit : Option Int) :
    (truthyS origin = true → truthyS event_type = true →
      (EventRepository.find_events event_type origin start_ts end_ts limit).view_name
        = "by_origintype" ∧
      (EventRepository.find_events event_type origin start_ts end_ts limit).start_key
        = [origin.getD "", event_type.getD ""] ++ tsKey start_ts ∧
      (EventRepository.find_events event_type origin start_ts end_ts limit).end_key
        = [origin.getD "", event_type.getD ""] ++ tsKey end_ts) ∧
    (truthyS origin = true → truthyS event_type = false →
      (EventRepository.find_events event_type origin start_ts end_ts limit).view_name
        = "by_origin" ∧
      (EventRepository.find_events event_type origin start_ts end_ts limit).start_key
        = [origin.getD ""] ++ tsKey start_ts ∧
      (EventRepository.find_events event_type origin start_ts end_ts limit).end_key
        = [origin.getD ""] ++ tsKey end_ts) ∧
    (truthyS origin = false → truthyS event_type = true →
      (EventRepository.find_events event_type origin start_ts end_ts limit).view_name
        = "by_type" ∧
      (EventRepository.find_events event_type origin start_ts end_ts limit).start_key
        = [event_type.getD ""] ++ tsKey start_ts ∧
      (EventRepository.find_events event_type origin start_ts end_ts limit).end_key
        = [event_type.getD ""] ++ tsKey end_ts) ∧
    (truthyS origin = false → truthyS event_type = false →
      (EventRepository.find_events event_type origin start_ts end_ts limit).view_name
        = "by_time" ∧
      (EventRepository.find_events event_type origin start_ts end_ts limit).start_key
        = tsKey start_ts ∧
      (EventRepository.find_events event_type origin start_ts end_ts limit).end_key
        = tsKey end_ts) := by
  cases ho : truthyS origin <;> cases het : truthyS event_type <;>
    cases hs : truthyS start_ts <;> cases he : truthyS end_ts <;>
    by_cases hl : limit.getD 0 < 1 <;>
    simp [EventRepository.find_events, tsKey, ho, het, hs, he, hl]

/-- C1 witness: with origin X and event type Y and a start bound, the
by_origintype view is selected and the start bound lands at the end of the
start key only. -/
theorem find_events_routing_witness :
    (EventRepository.find_events (some "Y") (some "X") (some "5") none none).view_name
      = "by_origintype" ∧
    (EventRepository.find_events (some "Y") (some "X") (some "5") none none).start_key
      = ["X", "Y", "5"] ∧
    (EventRepository.find_events (some "Y") (some "X") (some "5") none none).end_key
      = ["X", "Y"] :=
  (find_events_routing (some "Y") (some "X") (some "5") none none).1 (by decide) (by decide)

/-- C4: a find_events call that supplies none of origin, event type, start_ts,
end_ts and no limit runs against by_time with a forced default limit of 100,
and the warning is logged. -/
theorem find_events_default_limit (event_type origin start_ts end_ts : Option String)
    (ho : truthyS origin = false) (het : truthyS event_type = false)
    (hs : truthyS start_ts = false) (he : truthyS end_ts = false) :
    (EventRepository.find_events event_type origin start_ts end_ts none).view_name
      = "by_time" ∧
    (EventRepository.find_events event_type origin start_ts end_ts none).limit
      = some 100 ∧
    (EventRepository.find_events event_type origin start_ts end_ts none).warned
      = true := by
  simp [EventRepository.find_events, ho, het, hs, he]

/-- C4 witness: the fully unfiltered call with no limit. -/
theorem find_events_default_limit_witness :
    (EventRepository.find_events none none none none none).view_name = "by_time" ∧
    (EventRepository.find_events none none none none none).limit = some 100 ∧
    (EventRepository.find_events none none none none none).warned = true :=
  find_events_default_limit none none none none rfl rfl rfl rfl

/-- C10: in the unfiltered branch the forced default applies whenever the
supplied limit reads below 1 — a missing limit reads as 0, and an explicit
limit below 1, such as 0, is overridden to 100 exactly as an absent one. -/
theorem find_events_limit_override (event_type origin start_ts end_ts : Option String)
    (limit : Option Int)
    (ho : truthyS origin = false) (het : truthyS event_type = false)
    (hs : truthyS start_ts = false) (he : truthyS end_ts = false) :
    (EventRepository.find_events event_type origin start_ts end_ts limit).limit
      = (if limit.getD 0 < 1 then some 100 else limit) ∧
    (EventRepository.find_events event_type origin start_ts end_ts (some 0)).limit
      = some 100 := by
  by_cases hl : limit.getD 0 < 1 <;>
    simp [EventRepository.find_events, ho, het, hs, he, hl]

/-- C10 witness: an explicit limit of 0 in the unfiltered branch is
overridden to 100. -/
theorem find_events_limit_override_witness :
    (EventRepository.find_events none none none none (some 0)).limit
      = (if (some (0 : Int)).getD 0 < 1 then some 100 else some 0) ∧
    (EventRepository.find_events none none none none (some 0)).limit = some 100 :=
  find_events_limit_override none none none none (some 0) rfl rfl rfl rfl

/-- C5: with both segments present the publisher topic is the dot-joined
event type and origin, TempAlert with sensor42 yielding exactly
TempAlert.sensor42; a subscriber with neither filter binds the pattern
star-dot-hash, a missing event type defaulting to star and a missing origin
to hash. -/
theorem topic_round_trip :
    (∀ e o : String, e.isEmpty = false → o.isEmpty = false →
      EventPublisher.topic (some e) (some o) = some (e ++ "." ++ o)) ∧
    EventPublisher.topic (some "TempAlert") (some "sensor42")
      = some "TempAlert.sensor42" ∧
    EventSubscriber.topic none none = "*.#" ∧
    (∀ o : String, o.isEmpty = false →
      EventSubscriber.topic none (some o) = "*." ++ o) ∧
    (∀ e : String, e.isEmpty = false →
      EventSubscriber.topic (some e) none = e ++ ".#") := by
  refine ⟨?_, by decide, by decide, ?_, ?_⟩
  · intro e o he ho
    simp [EventPublisher.topic, truthyS, he, ho]
  · intro o ho
    simp [EventSubscriber.topic, truthyS, ho]
  · intro e he
    have hdot : ("." : String) ++ "#" = ".#" := rfl
    simp [EventSubscriber.topic, truthyS, he, string_append_assoc, hdot]

/-- C5 witness: the round trip at concrete inputs. -/
theorem topic_round_trip_witness :
    EventPublisher.topic (some "TempAlert") (some "sensor42")
      = some "TempAlert.sensor42" ∧
    EventSubscriber.topic none (some "sensor42") = "*.sensor42" :=
  ⟨topic_round_trip.2.1, topic_round_trip.2.2.2.1 "sensor42" (by decide)⟩

/-! ## pyon/net/messaging.py — blocking Node (NodeB) and its channel pool -/

/-- Modelled from the spec: pyon.util.pool.IDPool is not among the sources.
Per section 4.1 it is a free-list allocator of small reusable integers:
allocation returns the smallest previously released id when one exists and
otherwise mints a new one; releasing an id that is not currently allocated
is a programming error that fails fast. -/
structure IDPool where
  ids_free : List Nat
  next_id : Nat
deriving DecidableEq, Repr

def IDPool.fresh : IDPool := ⟨[], 0⟩

/-- Smallest element of a nonempty list given as head and tail. -/
def minOf (x : Nat) (l : List Nat) : Nat := l.foldl Nat.min x

theorem minOf_mem (x : Nat) (l : List Nat) : minOf x l ∈ x :: l := by
  induction l generalizing x with
  | nil => simp [minOf]
  | cons y t ih =>
    have hstep : minOf x (y :: t) = minOf (Nat.min x y) t := rfl
    rw [hstep]
    rcases List.mem_cons.mp (ih (Nat.min x y)) with h1 | h1
    · rw [h1]
      unfold Nat.min
      by_cases hxy : x ≤ y <;> simp [hxy, Nat.le_of_not_le]
    · exact List.mem_cons_of_mem _ (List.mem_cons_of_mem _ h1)

/-- Modelled from the spec: IDPool.get_id — reuse the smallest free id,
else mint a fresh one. -/
def IDPool.get_id (p : IDPool) : Nat × IDPool :=
  match p.ids_free with
  | [] => (p.next_id, ⟨[], p.next_id + 1⟩)
  | x :: xs => (minOf x xs, ⟨(x :: xs).erase (minOf x xs), p.next_id⟩)

/-- Modelled from the spec: IDPool.release_id — an id is currently allocated
when it was minted and is not on the free list; releasing anything else
fails fast, modelled as none. -/
def IDPool.release_id (p : IDPool) (i : Nat) : Option IDPool :=
  if i < p.next_id ∧ i ∉ p.ids_free then some ⟨p.ids_free ++ [i], p.next_id⟩ else none

/-- A logical channel as the pool sees it: the transport-assigned (pika)
channel number returned by get_channel_id, and the queue auto-delete flag
as read at the moment of the call (an instance attribute that can change
between acquisition and release). -/
structure Chan where
  chanNumber : Nat
  queueAutoDelete : Bool
deriving DecidableEq, Repr

/-- A channel class handed to NodeB.channel: whether it is exactly
BidirClientChannel, and its class-level queue auto-delete flag. -/
structure ChType where
  isBidirClient : Bool
  queueAutoDelete : Bool
deriving DecidableEq, Repr

/-- State of the blocking Node: the identifier pool, the identifier-to-channel
pool cache (inactive or active), the transport-number-to-identifier map
(active only), and a counter modelling the transport assigning fresh channel
numbers on each channel-open handshake. -/
structure NodeBState where
  pool : IDPool
  bidir_pool : List (Nat × Chan)
  pool_map : List (Nat × Nat)
  next_chan_num : Nat
deriving DecidableEq, Repr

namespace NodeB

/-- NodeB.__init__: empty pool structures. The transport numbers its channels
from 1 (number 0 is the connection channel). -/
def initState : NodeBState := ⟨IDPool.fresh, [], [], 1⟩

/-- The inner new_channel closure: invoke the channel-create callback and the
blocking transport-level channel open, which hands back a transport channel
with a fresh number; the new channel carries the class auto-delete flag. -/
def new_channel (ct : ChType) (st : NodeBState) : Chan × NodeBState :=
  (⟨st.next_chan_num, ct.queueAutoDelete⟩, { st with next_chan_num := st.next_chan_num + 1 })

/-- Result of NodeB.channel: a pooled channel handed back without a fresh
transport open, a freshly created channel (create callback invoked), or a
failed internal assertion. -/
inductive AcquireResult
  | pooled (ch : Chan)
  | created (ch : Chan)
  | assertFailed
deriving DecidableEq, Repr

/-- NodeB.channel: under the pool lock, a poolable request (exactly
BidirClientChannel with class auto-delete disabled) draws an id from the
pool; if that id is cached in bidir_pool the cached channel is returned and
its transport number recorded in pool_map (after asserting the id is not
already active), otherwise a fresh channel is created, cached and recorded.
A non-poolable request just creates a fresh channel. -/
def channel (ct : ChType) (st : NodeBState) : AcquireResult × NodeBState :=
  if ct.isBidirClient = true ∧ ct.queueAutoDelete = false then
    let chid := st.pool.get_id.1
    let st1 : NodeBState := { st with pool := st.pool.get_id.2 }
    match alookup st1.bidir_pool chid with
    | some ch =>
      if chid ∈ vals st1.pool_map then (.assertFailed, st1)
      else (.pooled ch, { st1 with pool_map := mapSet st1.pool_map ch.chanNumber chid })
    | none =>
      let ch := (new_channel ct st1).1
      let st2 := (new_channel ct st1).2
      (.created ch, { st2 with bidir_pool := mapSet st2.bidir_pool chid ch,
                               pool_map := mapSet st2.pool_map ch.chanNumber chid })
  else
    ((.created (new_channel ct st).1), (new_channel ct st).2)

/-- Result of NodeB.on_channel_request_close: the channel was returned to the
pool inactive; or its auto-delete flag had flipped, so a warning was logged
and the cache entry evicted; or the number was untracked and the channel was
closed at transport level unconditionally; or an internal-consistency
assertion failed. -/
inductive ReleaseResult
  | released
  | evictedWithWarning
  | closedImpl
  | assertFailed
deriving DecidableEq, Repr

/-- NodeB.on_channel_request_close: if the transport number of the channel is
tracked in pool_map, stop consumption, pop the number-to-identifier entry and
release the id back to the pool; then, if the auto-delete flag of the channel
has flipped on, warn and evict the cache entry, also withdrawing the id from
the free list (the id was just freed, so the Python list remove finds it).
If the number is untracked, close at transport level unconditionally. -/
def on_channel_request_close (ch : Chan) (st : NodeBState) : ReleaseResult × NodeBState :=
  match alookup st.pool_map ch.chanNumber with
  | some chid =>
    let pm : List (Nat × Nat) := removeKey st.pool_map ch.chanNumber
    match st.pool.release_id chid with
    | none => (.assertFailed, { st with pool_map := pm })
    | some pool1 =>
      if ch.queueAutoDelete then
        (.evictedWithWarning,
          { st with pool_map := pm,
                    bidir_pool := removeKey st.bidir_pool chid,
                    pool := ⟨pool1.ids_free.erase chid, pool1.next_id⟩ })
      else
        (.released, { st with pool_map := pm, pool := pool1 })
  | none => (.closedImpl, st)

end NodeB

/-- Pool bookkeeping invariant of the blocking Node, maintained by
construction, acquisition and release: the two maps have distinct keys and
pool_map has distinct identifier values; every pool_map entry points at a
cached channel carrying exactly that transport number; free ids are cached,
inactive and below the mint counter, as are all cached ids; cached channels
carry distinct transport numbers below the transport counter; and the
channel cached under a free id has an untracked transport number. -/
def Inv (st : NodeBState) : Prop :=
  (keys st.pool_map).Nodup ∧
  (vals st.pool_map).Nodup ∧
  (∀ p ∈ st.pool_map, ∃ q ∈ st.bidir_pool, q.1 = p.2 ∧ q.2.chanNumber = p.1) ∧
  (keys st.bidir_pool).Nodup ∧
  st.pool.ids_free.Nodup ∧
  (∀ i ∈ st.pool.ids_free, i ∈ keys st.bidir_pool) ∧
  (∀ i ∈ st.pool.ids_free, i ∉ vals st.pool_map) ∧
  (∀ i ∈ keys st.bidir_pool, i < st.pool.next_id) ∧
  (∀ q ∈ st.bidir_pool, q.2.chanNumber < st.next_chan_num) ∧
  (st.bidir_pool.map (fun q => q.2.chanNumber)).Nodup ∧
  (∀ i ∈ st.pool.ids_free, ∀ q ∈ st.bidir_pool, q.1 = i →
     q.2.chanNumber ∉ keys st.pool_map)

/-- States of the blocking Node reachable from construction through channel
acquisition and release. -/
inductive Reachable : NodeBState → Prop
  | init : Reachable NodeB.initState
  | chan (ct : ChType) {st : NodeBState} :
      Reachable st → Reachable (NodeB.channel ct st).2
  | close (ch : Chan) {st : NodeBState} :
      Reachable st → Reachable (NodeB.on_channel_request_close ch st).2

theorem nodup_append_single {α : Type} {l : List α} {a : α} (h : l.Nodup) (ha : a ∉ l) :
    (l ++ [a]).Nodup :=
  List.Nodup.append h (List.nodup_singleton a)
    (fun _ hx hxa => ha ((List.mem_singleton.mp hxa) ▸ hx))

theorem keys_sublist_removeKey {κ α : Type} [DecidableEq κ] (l : List (κ × α)) (k : κ) :
    (keys (removeKey l k)).Sublist (keys l) :=
  List.Sublist.map Prod.fst (removeKey_sublist l k)

theorem vals_sublist_removeKey {κ α : Type} [DecidableEq κ] (l : List (κ × α)) (k : κ) :
    (vals (removeKey l k)).Sublist (vals l) :=
  List.Sublist.map Prod.snd (removeKey_sublist l k)

/-- Derived from the invariant: every identifier active in pool_map is below
the mint counter. -/
theorem Inv.pm_vals_lt {st : NodeBState} (h : Inv st) :
    ∀ i ∈ vals st.pool_map, i < st.pool.next_id := by
  obtain ⟨-, -, h3, -, -, -, -, h8, -, -, -⟩ := h
  intro i hi
  obtain ⟨p, hp, hpi⟩ := List.mem_map.mp hi
  obtain ⟨q, hq, hq1, -⟩ := h3 p hp
  exact hpi ▸ hq1 ▸ h8 _ (mem_keys_of_mem hq)

/-- Derived from the invariant: every transport number tracked in pool_map is
below the transport counter. -/
theorem Inv.pm_keys_lt {st : NodeBState} (h : Inv st) :
    ∀ n ∈ keys st.pool_map, n < st.next_chan_num := by
  obtain ⟨-, -, h3, -, -, -, -, -, h9, -, -⟩ := h
  intro n hn
  obtain ⟨p, hp, hpn⟩ := List.mem_map.mp hn
  obtain ⟨q, hq, -, hq2⟩ := h3 p hp
  exact hpn ▸ hq2 ▸ h9 _ hq

theorem Inv_init : Inv NodeB.initState := by
  refine ⟨?_, ?_, ?_, ?_, ?_, ?_, ?_, ?_, ?_, ?_, ?_⟩ <;> simp [NodeB.initState, IDPool.fresh]

/-- Channel acquisition preserves the pool invariant. -/
theorem Inv_channel (ct : ChType) {st : NodeBState} (h : Inv st) :
    Inv (NodeB.channel ct st).2 := by
  by_cases hpool : ct.isBidirClient = true ∧ ct.queueAutoDelete = false
  · obtain ⟨hb, ha⟩ := hpool
    obtain ⟨h1, h2, h3, h4, h5, h6, h7, h8, h9, h10, h11⟩ := h
    cases hfree : st.pool.ids_free with
    | nil =>
      -- fresh mint: the id cannot be cached, a new channel is created
      have hget : st.pool.get_id = (st.pool.next_id, ⟨[], st.pool.next_id + 1⟩) := by
        unfold IDPool.get_id
        rw [hfree]
      have hnidnin : st.pool.next_id ∉ keys st.bidir_pool :=
        fun hm => absurd (h8 _ hm) (lt_irrefl _)
      have hcnnin : st.next_chan_num ∉ keys st.pool_map :=
        fun hm => absurd (Inv.pm_keys_lt ⟨h1, h2, h3, h4, h5, h6, h7, h8, h9, h10, h11⟩ _ hm)
          (lt_irrefl _)
      have hlook : alookup st.bidir_pool st.pool.next_id = none := alookup_eq_none hnidnin
      have hstate : (NodeB.channel ct st).2 =
          { pool := ⟨[], st.pool.next_id + 1⟩,
            bidir_pool := st.bidir_pool ++ [(st.pool.next_id, ⟨st.next_chan_num, false⟩)],
            pool_map := st.pool_map ++ [(st.next_chan_num, st.pool.next_id)],
            next_chan_num := st.next_chan_num + 1 } := by
        simp [NodeB.channel, hb, ha, hget, hlook, NodeB.new_channel,
          mapSet_not_mem _ hnidnin, mapSet_not_mem _ hcnnin]
      rw [hstate]
      have hvalnid : st.pool.next_id ∉ vals st.pool_map :=
        fun hm => absurd (Inv.pm_vals_lt ⟨h1, h2, h3, h4, h5, h6, h7, h8, h9, h10, h11⟩ _ hm)
          (lt_irrefl _)
      have hcnchan : st.next_chan_num ∉ st.bidir_pool.map (fun q => q.2.chanNumber) := by
        intro hm
        obtain ⟨q, hq, hqn⟩ := List.mem_map.mp hm
        exact absurd (hqn ▸ h9 _ hq) (lt_irrefl _)
      refine ⟨?_, ?_, ?_, ?_, ?_, ?_, ?_, ?_, ?_, ?_, ?_⟩
      · simp only [keys_append, keys_cons, keys_nil]
        exact nodup_append_single h1 hcnnin
      · simp only [vals_append, vals_cons, vals_nil]
        exact nodup_append_single h2 hvalnid
      · intro p hp
        rcases List.mem_append.mp hp with hp | hp
        · obtain ⟨q, hq, hq1, hq2⟩ := h3 p hp
          exact ⟨q, List.mem_append_left _ hq, hq1, hq2⟩
        · simp at hp
          subst hp
          exact ⟨(st.pool.next_id, ⟨st.next_chan_num, false⟩),
            List.mem_append_right _ (by simp), rfl, rfl⟩
      · simp only [keys_append, keys_cons, keys_nil]
        exact nodup_append_single h4 hnidnin
      · simp
      · simp
      · simp
      · intro i hi
        simp only [keys_append, keys_cons, keys_nil] at hi
        rcases List.mem_append.mp hi with hi | hi
        · exact Nat.lt_succ_of_lt (h8 _ hi)
        · simp at hi
          simp [hi]
      · intro q hq
        rcases List.mem_append.mp hq with hq | hq
        · exact Nat.lt_succ_of_lt (h9 _ hq)
        · simp at hq
          simp [hq]
      · simp only [List.map_append, List.map_cons, List.map_nil]
        exact nodup_append_single h10 hcnchan
      · simp
    | cons x xs =>
      -- reuse: the smallest free id is cached, its channel is handed back
      set chid := minOf x xs with hchid
      have hget : st.pool.get_id = (chid, ⟨(x :: xs).erase chid, st.pool.next_id⟩) := by
        unfold IDPool.get_id
        rw [hfree]
      have hchid_free : chid ∈ st.pool.ids_free := by
        rw [hfree]
        exact minOf_mem x xs
      have hchid_keys : chid ∈ keys st.bidir_pool := h6 _ hchid_free
      obtain ⟨ch, hlook⟩ := alookup_isSome hchid_keys
      have hmem : (chid, ch) ∈ st.bidir_pool := alookup_mem hlook
      have hassert : chid ∉ vals st.pool_map := h7 _ hchid_free
      have hcnnin : ch.chanNumber ∉ keys st.pool_map := h11 _ hchid_free _ hmem rfl
      have hstate : (NodeB.channel ct st).2 =
          { pool := ⟨(x :: xs).erase chid, st.pool.next_id⟩,
            bidir_pool := st.bidir_pool,
            pool_map := st.pool_map ++ [(ch.chanNumber, chid)],
            next_chan_num := st.next_chan_num } := by
        simp [NodeB.channel, hb, ha, hget, hlook, hassert, mapSet_not_mem _ hcnnin]
      rw [hstate]
      have herase_sub : ∀ i ∈ (x :: xs).erase chid, i ∈ st.pool.ids_free := by
        intro i hi
        rw [hfree]
        exact List.mem_of_mem_erase hi
      have herase_ne : ∀ i ∈ (x :: xs).erase chid, i ≠ chid := by
        intro i hi
        have hnd : (x :: xs).Nodup := hfree ▸ h5
        exact (List.Nodup.mem_erase_iff hnd |>.mp hi).1
      refine ⟨?_, ?_, ?_, ?_, ?_, ?_, ?_, ?_, ?_, ?_, ?_⟩
      · simp only [keys_append, keys_cons, keys_nil]
        exact nodup_append_single h1 hcnnin
      · simp only [vals_append, vals_cons, vals_nil]
        exact nodup_append_single h2 hassert
      · intro p hp
        rcases List.mem_append.mp hp with hp | hp
        · exact h3 p hp
        · simp at hp
          subst hp
          exact ⟨(chid, ch), hmem, rfl, rfl⟩
      · exact h4
      · exact (hfree ▸ h5 : (x :: xs).Nodup).erase chid
      · exact fun i hi => h6 _ (herase_sub i hi)
      · intro i hi
        simp
        exact ⟨fun hm => h7 _ (herase_sub i hi) hm, herase_ne i hi⟩
      · exact h8
      · exact h9
      · exact h10
      · intro i hi q hq hqi
        simp
        constructor
        · exact h11 _ (herase_sub i hi) q hq hqi
        · intro hcn
          have : q = (chid, ch) :=
            List.inj_on_of_nodup_map h10 hq hmem hcn
          exact herase_ne i hi (hqi ▸ congrArg Prod.fst this)
  · -- not poolable: only the transport counter moves
    obtain ⟨h1, h2, h3, h4, h5, h6, h7, h8, h9, h10, h11⟩ := h
    have hstate : (NodeB.channel ct st).2 =
        { st with next_chan_num := st.next_chan_num + 1 } := by
      simp [NodeB.channel, hpool, NodeB.new_channel]
    rw [hstate]
    exact ⟨h1, h2, h3, h4, h5, h6, h7, h8,
      fun q hq => Nat.lt_succ_of_lt (h9 q hq), h10, h11⟩

/-- Channel release preserves the pool invariant. -/
theorem Inv_close (ch : Chan) {st : NodeBState} (h : Inv st) :
    Inv (NodeB.on_channel_request_close ch st).2 := by
  obtain ⟨h1, h2, h3, h4, h5, h6, h7, h8, h9, h10, h11⟩ := h
  cases hlook : alookup st.pool_map ch.chanNumber with
  | none =>
    have hstate : (NodeB.on_channel_request_close ch st).2 = st := by
      simp [NodeB.on_channel_request_close, hlook]
    rw [hstate]
    exact ⟨h1, h2, h3, h4, h5, h6, h7, h8, h9, h10, h11⟩
  | some chid =>
    have hpm_mem : (ch.chanNumber, chid) ∈ st.pool_map := alookup_mem hlook
    obtain ⟨q0, hq0, hq01, hq02⟩ := h3 _ hpm_mem
    have hq01' : q0.1 = chid := hq01
    have hq02' : q0.2.chanNumber = ch.chanNumber := hq02
    have hchid_keys : chid ∈ keys st.bidir_pool := hq01' ▸ mem_keys_of_mem hq0
    have hchid_lt : chid < st.pool.next_id := h8 _ hchid_keys
    have hchid_nfree : chid ∉ st.pool.ids_free :=
      fun hm => h7 _ hm (mem_vals_of_mem hpm_mem)
    have hrel : st.pool.release_id chid =
        some ⟨st.pool.ids_free ++ [chid], st.pool.next_id⟩ := by
      simp [IDPool.release_id, hchid_lt, hchid_nfree]
    have hchid_nvals : chid ∉ vals (removeKey st.pool_map ch.chanNumber) :=
      val_not_mem_vals_removeKey h1 h2 hpm_mem
    have hkeys_rk : (keys (removeKey st.pool_map ch.chanNumber)).Nodup :=
      h1.sublist (keys_sublist_removeKey _ _)
    have hvals_rk : (vals (removeKey st.pool_map ch.chanNumber)).Nodup :=
      h2.sublist (vals_sublist_removeKey _ _)
    have hsub_rk : ∀ p ∈ removeKey st.pool_map ch.chanNumber, p ∈ st.pool_map :=
      fun p hp => mem_of_mem_removeKey hp
    have hkeys_sub : ∀ n ∈ keys (removeKey st.pool_map ch.chanNumber), n ∈ keys st.pool_map :=
      fun n hn => (keys_sublist_removeKey st.pool_map ch.chanNumber).mem hn
    have hvals_sub : ∀ i ∈ vals (removeKey st.pool_map ch.chanNumber), i ∈ vals st.pool_map :=
      fun i hi => (vals_sublist_removeKey st.pool_map ch.chanNumber).mem hi
    cases had : ch.queueAutoDelete with
    | false =>
      have hstate : (NodeB.on_channel_request_close ch st).2 =
          { st with pool_map := removeKey st.pool_map ch.chanNumber,
                    pool := ⟨st.pool.ids_free ++ [chid], st.pool.next_id⟩ } := by
        simp [NodeB.on_channel_request_close, hlook, hrel, had]
      rw [hstate]
      refine ⟨hkeys_rk, hvals_rk, ?_, h4, ?_, ?_, ?_, h8, h9, h10, ?_⟩
      · exact fun p hp => h3 p (hsub_rk p hp)
      · exact nodup_append_single h5 hchid_nfree
      · intro i hi
        rcases List.mem_append.mp hi with hi | hi
        · exact h6 _ hi
        · simp at hi
          exact hi ▸ hchid_keys
      · intro i hi
        rcases List.mem_append.mp hi with hi | hi
        · exact fun hm => h7 _ hi (hvals_sub _ hm)
        · simp at hi
          exact hi ▸ hchid_nvals
      · intro i hi q hq hqi
        rcases List.mem_append.mp hi with hi | hi
        · exact fun hm => h11 _ hi q hq hqi (hkeys_sub _ hm)
        · simp at hi
          subst hi
          have hqq0 : q = q0 :=
            List.inj_on_of_nodup_map (f := Prod.fst) h4 hq hq0 (by rw [hqi, hq01'])
          rw [hqq0, hq02']
          exact not_mem_keys_removeKey h1
    | true =>
      have herase : (st.pool.ids_free ++ [chid]).erase chid = st.pool.ids_free := by
        rw [List.erase_append_right _ hchid_nfree, List.erase_cons_head, List.append_nil]
      have hstate : (NodeB.on_channel_request_close ch st).2 =
          { st with pool_map := removeKey st.pool_map ch.chanNumber,
                    bidir_pool := removeKey st.bidir_pool chid,
                    pool := ⟨st.pool.ids_free, st.pool.next_id⟩ } := by
        simp [NodeB.on_channel_request_close, hlook, hrel, had, herase]
      rw [hstate]
      refine ⟨hkeys_rk, hvals_rk, ?_, h4.sublist (keys_sublist_removeKey _ _), h5, ?_, ?_,
        ?_, ?_, h10.sublist (List.Sublist.map _ (removeKey_sublist _ _)), ?_⟩
      · intro p hp
        obtain ⟨q, hq, hq1, hq2⟩ := h3 p (hsub_rk p hp)
        refine ⟨q, mem_removeKey_of_ne hq ?_, hq1, hq2⟩
        intro hqchid
        apply hchid_nvals
        have hv : p.2 ∈ vals (removeKey st.pool_map ch.chanNumber) := mem_vals_of_mem hp
        rw [← hq1, hqchid] at hv
        exact hv
      · intro i hi
        have hine : i ≠ chid := fun he => hchid_nfree (he ▸ hi)
        obtain ⟨q, hq, hq1⟩ := List.mem_map.mp (h6 _ hi)
        exact hq1 ▸ mem_keys_of_mem (mem_removeKey_of_ne hq (hq1.symm ▸ hine))
      · exact fun i hi hm => h7 _ hi (hvals_sub _ hm)
      · exact fun i hi => h8 _ ((keys_sublist_removeKey _ _).mem hi)
      · exact fun q hq => h9 _ (mem_of_mem_removeKey hq)
      · exact fun i hi q hq hqi hm =>
          h11 _ hi q (mem_of_mem_removeKey hq) hqi (hkeys_sub _ hm)

/-- Every reachable state of the blocking Node satisfies the pool invariant. -/
theorem Reachable.inv {st : NodeBState} (h : Reachable st) : Inv st := by
  induction h with
  | init => exact Inv_init
  | chan ct _ ih => exact Inv_channel ct ih
  | close ch _ ih => exact Inv_close ch ih

/-- C2: on the blocking Node, a poolable bidirectional request served while
some identifier maps to a cached-but-inactive channel returns that pooled
channel without a transport-level open, recording its
transport-number-to-identifier entry; otherwise a fresh channel is created
through the create callback and, if poolable, bound to a freshly allocated
identifier and cached in the pool. -/
theorem channel_acquisition (ct : ChType) (st : NodeBState) (hInv : Inv st) :
    ((ct.isBidirClient = true ∧ ct.queueAutoDelete = false ∧
      ∃ i ∈ st.pool.ids_free, i ∈ keys st.bidir_pool) →
      ∃ chid ch, chid ∈ st.pool.ids_free ∧ (chid, ch) ∈ st.bidir_pool ∧
        (NodeB.channel ct st).1 = .pooled ch ∧
        (NodeB.channel ct st).2.pool_map = st.pool_map ++ [(ch.chanNumber, chid)] ∧
        (NodeB.channel ct st).2.bidir_pool = st.bidir_pool ∧
        (NodeB.channel ct st).2.next_chan_num = st.next_chan_num) ∧
    ((ct.isBidirClient = true ∧ ct.queueAutoDelete = false ∧ st.pool.ids_free = []) →
      ∃ ch, (NodeB.channel ct st).1 = .created ch ∧
        (NodeB.channel ct st).2.bidir_pool = st.bidir_pool ++ [(st.pool.next_id, ch)] ∧
        (NodeB.channel ct st).2.pool_map = st.pool_map ++ [(ch.chanNumber, st.pool.next_id)]) ∧
    (¬(ct.isBidirClient = true ∧ ct.queueAutoDelete = false) →
      (NodeB.channel ct st).1 = .created ⟨st.next_chan_num, ct.queueAutoDelete⟩ ∧
      (NodeB.channel ct st).2.bidir_pool = st.bidir_pool ∧
      (NodeB.channel ct st).2.pool_map = st.pool_map) := by
  obtain ⟨h1, h2, h3, h4, h5, h6, h7, h8, h9, h10, h11⟩ := hInv
  refine ⟨?_, ?_, ?_⟩
  · rintro ⟨hb, ha, i, hif, -⟩
    cases hfree : st.pool.ids_free with
    | nil => rw [hfree] at hif; cases hif
    | cons x xs =>
      set chid := minOf x xs with hchid
      have hget : st.pool.get_id = (chid, ⟨(x :: xs).erase chid, st.pool.next_id⟩) := by
        unfold IDPool.get_id
        rw [hfree]
      have hchid_free : chid ∈ st.pool.ids_free := by
        rw [hfree]
        exact minOf_mem x xs
      obtain ⟨ch, hlook⟩ := alookup_isSome (h6 _ hchid_free)
      have hmem : (chid, ch) ∈ st.bidir_pool := alookup_mem hlook
      have hassert : chid ∉ vals st.pool_map := h7 _ hchid_free
      have hcnnin : ch.chanNumber ∉ keys st.pool_map := h11 _ hchid_free _ hmem rfl
      have hchan : NodeB.channel ct st =
          (.pooled ch,
            { pool := ⟨(x :: xs).erase chid, st.pool.next_id⟩,
              bidir_pool := st.bidir_pool,
              pool_map := st.pool_map ++ [(ch.chanNumber, chid)],
              next_chan_num := st.next_chan_num }) := by
        simp [NodeB.channel, hb, ha, hget, hlook, hassert, mapSet_not_mem _ hcnnin]
      exact ⟨chid, ch, minOf_mem x xs, hmem, by rw [hchan], by rw [hchan], by rw [hchan],
        by rw [hchan]⟩
  · rintro ⟨hb, ha, hfree⟩
    have hget : st.pool.get_id = (st.pool.next_id, ⟨[], st.pool.next_id + 1⟩) := by
      unfold IDPool.get_id
      rw [hfree]
    have hnidnin : st.pool.next_id ∉ keys st.bidir_pool :=
      fun hm => absurd (h8 _ hm) (lt_irrefl _)
    have hcnnin : st.next_chan_num ∉ keys st.pool_map :=
      fun hm => absurd (Inv.pm_keys_lt ⟨h1, h2, h3, h4, h5, h6, h7, h8, h9, h10, h11⟩ _ hm)
        (lt_irrefl _)
    have hlook : alookup st.bidir_pool st.pool.next_id = none := alookup_eq_none hnidnin
    have hchan : NodeB.channel ct st =
        (.created ⟨st.next_chan_num, false⟩,
          { pool := ⟨[], st.pool.next_id + 1⟩,
            bidir_pool := st.bidir_pool ++ [(st.pool.next_id, ⟨st.next_chan_num, false⟩)],
            pool_map := st.pool_map ++ [(st.next_chan_num, st.pool.next_id)],
            next_chan_num := st.next_chan_num + 1 }) := by
      simp [NodeB.channel, hb, ha, hget, hlook, NodeB.new_channel,
        mapSet_not_mem _ hnidnin, mapSet_not_mem _ hcnnin]
    exact ⟨⟨st.next_chan_num, false⟩, by rw [hchan], by rw [hchan], by rw [hchan]⟩
  · intro hnp
    have hchan : NodeB.channel ct st =
        (.created ⟨st.next_chan_num, ct.queueAutoDelete⟩,
          { st with next_chan_num := st.next_chan_num + 1 }) := by
      simp [NodeB.channel, hnp, NodeB.new_channel]
    exact ⟨by rw [hchan], by rw [hchan], by rw [hchan]⟩

instance Inv.decidable (st : NodeBState) : Decidable (Inv st) := by
  unfold Inv
  infer_instance

/-- The poolable bidirectional channel class: exactly BidirClientChannel with
class-level queue auto-delete disabled. -/
def bidirCT : ChType := ⟨true, false⟩

/-- A concrete Node state with one inactive channel cached under the free
identifier 0. -/
def stPooled : NodeBState :=
  { pool := ⟨[0], 1⟩, bidir_pool := [(0, ⟨1, false⟩)], pool_map := [], next_chan_num := 2 }

/-- C2 witness: on a state holding one cached inactive channel, the poolable
request is served from the pool. -/
theorem channel_acquisition_witness :
    ∃ chid ch, chid ∈ stPooled.pool.ids_free ∧ (chid, ch) ∈ stPooled.bidir_pool ∧
      (NodeB.channel bidirCT stPooled).1 = .pooled ch ∧
      (NodeB.channel bidirCT stPooled).2.pool_map
        = stPooled.pool_map ++ [(ch.chanNumber, chid)] ∧
      (NodeB.channel bidirCT stPooled).2.bidir_pool = stPooled.bidir_pool ∧
      (NodeB.channel bidirCT stPooled).2.next_chan_num = stPooled.next_chan_num :=
  (channel_acquisition bidirCT stPooled (by decide)).1
    ⟨rfl, rfl, 0, by decide, by decide⟩

/-- C6: after every operation of the blocking Node, every pool_map entry maps
an active transport number to an identifier cached in bidir_pool, and
pool_map never outgrows bidir_pool. -/
theorem pool_map_within_pool {st : NodeBState} (h : Reachable st) :
    (∀ p ∈ st.pool_map, p.2 ∈ keys st.bidir_pool) ∧
    st.pool_map.length ≤ st.bidir_pool.length := by
  obtain ⟨h1, h2, h3, h4, h5, h6, h7, h8, h9, h10, h11⟩ := h.inv
  constructor
  · intro p hp
    obtain ⟨q, hq, hq1, -⟩ := h3 p hp
    exact hq1 ▸ mem_keys_of_mem hq
  · have hsub : vals st.pool_map ⊆ keys st.bidir_pool := by
      intro i hi
      obtain ⟨p, hp, hpi⟩ := List.mem_map.mp hi
      obtain ⟨q, hq, hq1, -⟩ := h3 p hp
      exact hpi ▸ hq1 ▸ mem_keys_of_mem hq
    have hlen := (List.subperm_of_subset h2 hsub).length_le
    simpa [vals, keys] using hlen

/-- C6 witness: the invariant at the state reached by one poolable
acquisition from the initial state. -/
theorem pool_map_within_pool_witness :
    (NodeB.channel bidirCT NodeB.initState).2.pool_map.length
      ≤ (NodeB.channel bidirCT NodeB.initState).2.bidir_pool.length :=
  (pool_map_within_pool (Reachable.chan bidirCT Reachable.init)).2

/-- C7: a channel with queue auto-delete enabled never enters the
bidirectional pool at acquisition, and when a pooled channel is released with
its auto-delete flag flipped on, the release warns and evicts the cache entry
instead of keeping it for reuse. -/
theorem autodelete_never_pooled :
    (∀ (ct : ChType) (st : NodeBState), ∀ p ∈ (NodeB.channel ct st).2.bidir_pool,
      p ∈ st.bidir_pool ∨ p.2.queueAutoDelete = false) ∧
    (∀ (ch : Chan) (st : NodeBState) (chid : Nat), Inv st → ch.queueAutoDelete = true →
      alookup st.pool_map ch.chanNumber = some chid →
      (NodeB.on_channel_request_close ch st).1 = .evictedWithWarning ∧
      chid ∉ keys (NodeB.on_channel_request_close ch st).2.bidir_pool) := by
  constructor
  · intro ct st p hp
    by_cases hpool : ct.isBidirClient = true ∧ ct.queueAutoDelete = false
    · obtain ⟨hb, ha⟩ := hpool
      cases hlook : alookup st.bidir_pool st.pool.get_id.1 with
      | some ch =>
        by_cases hassert : st.pool.get_id.1 ∈ vals st.pool_map
        · have hchan : (NodeB.channel ct st).2.bidir_pool = st.bidir_pool := by
            simp [NodeB.channel, hb, ha, hlook, hassert]
          rw [hchan] at hp
          exact Or.inl hp
        · have hchan : (NodeB.channel ct st).2.bidir_pool = st.bidir_pool := by
            simp [NodeB.channel, hb, ha, hlook, hassert]
          rw [hchan] at hp
          exact Or.inl hp
      | none =>
        have hchan : (NodeB.channel ct st).2.bidir_pool
            = mapSet st.bidir_pool st.pool.get_id.1 ⟨st.next_chan_num, false⟩ := by
          simp [NodeB.channel, hb, ha, hlook, NodeB.new_channel]
        rw [hchan] at hp
        rcases mem_mapSet hp with hp | hp
        · exact Or.inl hp
        · right
          rw [hp]
    · have hchan : (NodeB.channel ct st).2.bidir_pool = st.bidir_pool := by
        simp [NodeB.channel, hpool, NodeB.new_channel]
      rw [hchan] at hp
      exact Or.inl hp
  · intro ch st chid hInv had hlook
    obtain ⟨h1, h2, h3, h4, h5, h6, h7, h8, h9, h10, h11⟩ := hInv
    have hpm_mem : (ch.chanNumber, chid) ∈ st.pool_map := alookup_mem hlook
    obtain ⟨q0, hq0, hq01, hq02⟩ := h3 _ hpm_mem
    have hq01' : q0.1 = chid := hq01
    have hchid_keys : chid ∈ keys st.bidir_pool := hq01' ▸ mem_keys_of_mem hq0
    have hchid_lt : chid < st.pool.next_id := h8 _ hchid_keys
    have hchid_nfree : chid ∉ st.pool.ids_free :=
      fun hm => h7 _ hm (mem_vals_of_mem hpm_mem)
    have hrel : st.pool.release_id chid =
        some ⟨st.pool.ids_free ++ [chid], st.pool.next_id⟩ := by
      simp [IDPool.release_id, hchid_lt, hchid_nfree]
    have herase : (st.pool.ids_free ++ [chid]).erase chid = st.pool.ids_free := by
      rw [List.erase_append_right _ hchid_nfree, List.erase_cons_head, List.append_nil]
    have hstate : NodeB.on_channel_request_close ch st =
        (.evictedWithWarning,
          { st with pool_map := removeKey st.pool_map ch.chanNumber,
                    bidir_pool := removeKey st.bidir_pool chid,
                    pool := ⟨st.pool.ids_free, st.pool.next_id⟩ }) := by
      simp [NodeB.on_channel_request_close, hlook, hrel, had, herase]
    rw [hstate]
    exact ⟨rfl, not_mem_keys_removeKey h4⟩

/-- A state with one active pooled channel: identifier 0 is bound to the
channel with transport number 1 and currently handed out. -/
def stActive : NodeBState :=
  { pool := ⟨[], 1⟩, bidir_pool := [(0, ⟨1, false⟩)], pool_map := [(1, 0)], next_chan_num := 2 }

/-- C7 witness: releasing the active pooled channel after its auto-delete
flag flipped on evicts identifier 0 from the cache with a warning. -/
theorem autodelete_never_pooled_witness :
    (NodeB.on_channel_request_close ⟨1, true⟩ stActive).1 = .evictedWithWarning ∧
    0 ∉ keys (NodeB.on_channel_request_close ⟨1, true⟩ stActive).2.bidir_pool :=
  autodelete_never_pooled.2 ⟨1, true⟩ stActive 0 (by decide) rfl (by decide)

/-- The channel created by the first poolable acquisition from the initial
state: transport number 1, auto-delete disabled. -/
def chFirst : Chan := ⟨1, false⟩

/-- State after acquiring one poolable bidirectional channel from the initial
state. -/
def stAfterAcquire : NodeBState := (NodeB.channel bidirCT NodeB.initState).2

/-- State after then releasing that channel once. -/
def stAfterRelease : NodeBState :=
  (NodeB.on_channel_request_close chFirst stAfterAcquire).2

/-- C3 counterexample: releasing the same channel twice is not rejected the
second time — the first release returns the channel to the pool, and the
second quietly takes the untracked branch and closes at transport level,
with no internal-consistency failure. -/
theorem double_release_counterexample :
    (NodeB.on_channel_request_close chFirst stAfterAcquire).1
      = NodeB.ReleaseResult.released ∧
    (NodeB.on_channel_request_close chFirst stAfterRelease).1
      = NodeB.ReleaseResult.closedImpl ∧
    NodeB.ReleaseResult.closedImpl ≠ NodeB.ReleaseResult.assertFailed := by decide

/-- C3 amended: releasing a tracked channel succeeds (pool return or
eviction), and a second release of the same channel finds its transport
number untracked and performs an unconditional transport-level close, leaving
the state unchanged — silently accepted, not failed fast. -/
theorem double_release_closes (ch : Chan) (st : NodeBState) (hInv : Inv st)
    (h : ch.chanNumber ∈ keys st.pool_map) :
    ((NodeB.on_channel_request_close ch st).1 = NodeB.ReleaseResult.released ∨
     (NodeB.on_channel_request_close ch st).1 = NodeB.ReleaseResult.evictedWithWarning) ∧
    NodeB.on_channel_request_close ch (NodeB.on_channel_request_close ch st).2
      = (NodeB.ReleaseResult.closedImpl, (NodeB.on_channel_request_close ch st).2) := by
  obtain ⟨h1, h2, h3, h4, h5, h6, h7, h8, h9, h10, h11⟩ := hInv
  obtain ⟨chid, hlook⟩ := alookup_isSome h
  have hpm_mem : (ch.chanNumber, chid) ∈ st.pool_map := alookup_mem hlook
  obtain ⟨q0, hq0, hq01, hq02⟩ := h3 _ hpm_mem
  have hq01' : q0.1 = chid := hq01
  have hchid_keys : chid ∈ keys st.bidir_pool := hq01' ▸ mem_keys_of_mem hq0
  have hchid_lt : chid < st.pool.next_id := h8 _ hchid_keys
  have hchid_nfree : chid ∉ st.pool.ids_free :=
    fun hm => h7 _ hm (mem_vals_of_mem hpm_mem)
  have hrel : st.pool.release_id chid =
      some ⟨st.pool.ids_free ++ [chid], st.pool.next_id⟩ := by
    simp [IDPool.release_id, hchid_lt, hchid_nfree]
  have hlook2 : alookup (removeKey st.pool_map ch.chanNumber) ch.chanNumber = none :=
    alookup_eq_none (not_mem_keys_removeKey h1)
  cases had : ch.queueAutoDelete with
  | false =>
    have hstate : NodeB.on_channel_request_close ch st =
        (.released,
          { st with pool_map := removeKey st.pool_map ch.chanNumber,
                    pool := ⟨st.pool.ids_free ++ [chid], st.pool.next_id⟩ }) := by
      simp [NodeB.on_channel_request_close, hlook, hrel, had]
    rw [hstate]
    exact ⟨Or.inl rfl, by simp [NodeB.on_channel_request_close, hlook2]⟩
  | true =>
    have herase : (st.pool.ids_free ++ [chid]).erase chid = st.pool.ids_free := by
      rw [List.erase_append_right _ hchid_nfree, List.erase_cons_head, List.append_nil]
    have hstate : NodeB.on_channel_request_close ch st =
        (.evictedWithWarning,
          { st with pool_map := removeKey st.pool_map ch.chanNumber,
                    bidir_pool := removeKey st.bidir_pool chid,
                    pool := ⟨st.pool.ids_free, st.pool.next_id⟩ }) := by
      simp [NodeB.on_channel_request_close, hlook, hrel, had, herase]
    rw [hstate]
    exact ⟨Or.inr rfl, by simp [NodeB.on_channel_request_close, hlook2]⟩

/-- C3 amended witness: the concrete double release along the trace from the
initial state. -/
theorem double_release_closes_witness :
    ((NodeB.on_channel_request_close chFirst stAfterAcquire).1
        = NodeB.ReleaseResult.released ∨
     (NodeB.on_channel_request_close chFirst stAfterAcquire).1
        = NodeB.ReleaseResult.evictedWithWarning) ∧
    NodeB.on_channel_request_close chFirst stAfterRelease
      = (NodeB.ReleaseResult.closedImpl, stAfterRelease) :=
  double_release_closes chFirst stAfterAcquire (by decide) (by decide)

/-! ## pyon/net/messaging.py — non-blocking Node (NodeNB) -/

/-- State of the non-blocking Node: the identifier pool, the
identifier-to-channel registry as a Python dict in insertion order, the
connection-active flag, and the list of identifiers whose channels have been
bound to a transport channel, in binding order. -/
structure NodeNBState where
  id_pool : IDPool
  channels : List (Nat × ChType)
  running : Bool
  started : List Nat
deriving DecidableEq, Repr

namespace NodeNB

/-- Modelled from the spec: the running flag lives on the amqp.Node base
class, which is not among the sources; per section 4.4 it is unset until the
connection becomes active. NodeNB.__init__ starts with an empty registry and
a fresh pool. -/
def initState : NodeNBState := ⟨IDPool.fresh, [], false, []⟩

/-- NodeNB.start_channel: bind the registered channel to a transport channel
(client.channel with the on-open callback); modelled as recording the
identifier in binding order. -/
def start_channel (ch_id : Nat) (st : NodeNBState) : NodeNBState :=
  { st with started := st.started ++ [ch_id] }

/-- NodeNB.channel: instantiate the channel class, allocate an identifier,
store the channel in the registry, and start it immediately when the
connection is already active. -/
def channel (ct : ChType) (st : NodeNBState) : Nat × NodeNBState :=
  let ch_id := st.id_pool.get_id.1
  let st1 : NodeNBState := { st with id_pool := st.id_pool.get_id.2,
                                     channels := mapSet st.channels ch_id ct }
  if st1.running then (ch_id, start_channel ch_id st1) else (ch_id, st1)

/-- NodeNB.start_node: the connection becomes active (modelled from the spec,
amqp.Node.start_node is not among the sources), then every registered channel
is started by iterating the registry. Python dict iteration order is modelled
as insertion order, which for this registry coincides with increasing
identifier order because identifiers are never released. -/
def start_node (st : NodeNBState) : NodeNBState :=
  (keys st.channels).foldl (fun s i => start_channel i s)
    { st with running := true }

end NodeNB

/-- States of the non-blocking Node reachable from construction through
channel registration and connection activation. -/
inductive ReachableNB : NodeNBState → Prop
  | init : ReachableNB NodeNB.initState
  | chan (ct : ChType) {st : NodeNBState} :
      ReachableNB st → ReachableNB (NodeNB.channel ct st).2
  | start {st : NodeNBState} :
      ReachableNB st → ReachableNB (NodeNB.start_node st)

theorem foldl_start_channel (l : List Nat) (st : NodeNBState) :
    l.foldl (fun s i => NodeNB.start_channel i s) st =
      { st with started := st.started ++ l } := by
  induction l generalizing st with
  | nil => simp
  | cons x t ih =>
    rw [List.foldl_cons, ih]
    simp [NodeNB.start_channel]

/-- Bookkeeping of the non-blocking Node: identifiers are never released, so
the free list stays empty and the registry keys are exactly the minted
identifiers 0, 1, ... in insertion order. -/
theorem ReachableNB.registry {st : NodeNBState} (h : ReachableNB st) :
    st.id_pool.ids_free = [] ∧ keys st.channels = List.range st.id_pool.next_id := by
  induction h with
  | init => exact ⟨rfl, rfl⟩
  | chan ct hr ih =>
    obtain ⟨hfree, hkeys⟩ := ih
    rename_i st0
    have hget : st0.id_pool.get_id = (st0.id_pool.next_id, ⟨[], st0.id_pool.next_id + 1⟩) := by
      unfold IDPool.get_id
      rw [hfree]
    have hnin : st0.id_pool.next_id ∉ keys st0.channels := by
      rw [hkeys]
      simp
    have hset : mapSet st0.channels st0.id_pool.next_id ct
        = st0.channels ++ [(st0.id_pool.next_id, ct)] := mapSet_not_mem _ hnin
    cases hrun : st0.running with
    | false =>
      constructor <;>
        simp [NodeNB.channel, hget, hset, hrun, hkeys, List.range_succ]
    | true =>
      constructor <;>
        simp [NodeNB.channel, NodeNB.start_channel, hget, hset, hrun, hkeys, List.range_succ]
  | start hr ih =>
    obtain ⟨hfree, hkeys⟩ := ih
    rw [NodeNB.start_node, foldl_start_channel]
    exact ⟨hfree, hkeys⟩

/-- C9: on the non-blocking Node, every channel call allocates a fresh
identifier and stores the channel in the registry, starting it immediately
when the connection is already running; and when the connection becomes
active, all registered channels are started in identifier order. -/
theorem nb_channel_registry {st : NodeNBState} (h : ReachableNB st) :
    (∀ ct : ChType,
      (NodeNB.channel ct st).1 ∉ keys st.channels ∧
      (NodeNB.channel ct st).2.channels
        = st.channels ++ [((NodeNB.channel ct st).1, ct)] ∧
      (st.running = true →
        (NodeNB.channel ct st).2.started = st.started ++ [(NodeNB.channel ct st).1]) ∧
      (st.running = false → (NodeNB.channel ct st).2.started = st.started)) ∧
    ((NodeNB.start_node st).started = st.started ++ keys st.channels ∧
      (keys st.channels).Pairwise (· < ·)) := by
  obtain ⟨hfree, hkeys⟩ := h.registry
  have hget : st.id_pool.get_id = (st.id_pool.next_id, ⟨[], st.id_pool.next_id + 1⟩) := by
    unfold IDPool.get_id
    rw [hfree]
  have hnin : st.id_pool.next_id ∉ keys st.channels := by
    rw [hkeys]
    simp
  constructor
  · intro ct
    have hset : mapSet st.channels st.id_pool.next_id ct
        = st.channels ++ [(st.id_pool.next_id, ct)] := mapSet_not_mem _ hnin
    cases hrun : st.running with
    | false =>
      have hchan : NodeNB.channel ct st =
          (st.id_pool.next_id,
            { st with id_pool := ⟨[], st.id_pool.next_id + 1⟩,
                      channels := st.channels ++ [(st.id_pool.next_id, ct)] }) := by
        simp [NodeNB.channel, hget, hset, hrun]
      refine ⟨?_, ?_, ?_, ?_⟩
      · rw [hchan]
        exact hnin
      · rw [hchan]
      · intro hr
        simp at hr
      · intro _
        rw [hchan]
    | true =>
      have hchan : NodeNB.channel ct st =
          (st.id_pool.next_id,
            { st with id_pool := ⟨[], st.id_pool.next_id + 1⟩,
                      channels := st.channels ++ [(st.id_pool.next_id, ct)],
                      started := st.started ++ [st.id_pool.next_id] }) := by
        simp [NodeNB.channel, NodeNB.start_channel, hget, hset, hrun]
      refine ⟨?_, ?_, ?_, ?_⟩
      · rw [hchan]
        exact hnin
      · rw [hchan]
      · intro _
        rw [hchan]
      · intro hr
        simp at hr
  · constructor
    · rw [NodeNB.start_node, foldl_start_channel]
    · rw [hkeys]
      exact List.pairwise_lt_range _

/-- C9 witness: at the initial state the first registration mints a fresh
identifier and activation starts the empty registry in order. -/
theorem nb_channel_registry_witness :
    (NodeNB.channel ⟨true, false⟩ NodeNB.initState).1
      ∉ keys NodeNB.initState.channels ∧
    (NodeNB.start_node NodeNB.initState).started
      = NodeNB.initState.started ++ keys NodeNB.initState.channels :=
  ⟨((nb_channel_registry ReachableNB.init).1 ⟨true, false⟩).1,
    (nb_channel_registry ReachableNB.init).2.1⟩

/-! ## pyon/datastore/couchdb/couchdb_datastore.py — reads and queries -/

/-- A stored document: its Ion type tag and remaining fields. -/
structure Doc where
  type_ : String
  body : List (String × String)
deriving DecidableEq, Repr

/-- Errors surfaced by datastore operations: the Ion exceptions NotFound
(status 404) and BadRequest (status 400), and the generic Python TypeError
raised when code subscripts a None result. -/
inductive DsErr
  | notFound (msg : String)
  | badRequest (msg : String)
  | typeError (msg : String)
deriving DecidableEq, Repr

/-- Whether an operation outcome surfaces the distinct not-found
condition. -/
def surfacesNotFound {α : Type} : Except DsErr α → Bool
  | .error (.notFound _) => true
  | _ => false

namespace CouchDB

/-- CouchDB_DataStore.read_doc at head revision: db.get returns the document
when the id is present and None otherwise, and read_doc passes that through
without raising. The database is an association list from document id to
document. -/
def read_doc (db : List (String × Doc)) (object_id : String) : Option Doc :=
  alookup db object_id

/-- CouchDB_DataStore.read: fetches via read_doc, then builds the Ion object
from the type_ field of the document. When the id is absent, read_doc hands
back None and the subscript doc of type_ raises a TypeError — not an Ion
NotFound. -/
def read (db : List (String × Doc)) (object_id : String) : Except DsErr Doc :=
  match read_doc db object_id with
  | none => .error (.typeError "NoneType object is unsubscriptable")
  | some doc => .ok doc

/-- CouchDB_DataStore.find_docs: builds a temporary map function from the
criteria and runs it store-side. The store-side evaluation of the generated
function over every document is the external collaborator and is modelled by
the predicate query; criteriaStr stands for the printed criteria used in the
error messages; a database of none models the query failing against a
structurally absent target, the ResourceNotFound path. An empty result list
raises NotFound, as does the ResourceNotFound path. -/
def find_docs (db : Option (List (String × Doc))) (criteriaStr : String)
    (query : Doc → Bool) : Except DsErr (List Doc) :=
  match db with
  | none =>
    .error (.notFound ("Data store query for criteria " ++ criteriaStr ++ " failed"))
  | some docs =>
    let queryList := docs.filter (fun p => query p.2)
    if queryList.length = 0 then
      .error (.notFound
        ("Data store query for criteria " ++ criteriaStr ++ " returned no objects"))
    else
      .ok (queryList.map (fun p => p.2))

end CouchDB

namespace EventRepository

/-- EventRepository.get_event: a pass-through to the datastore read, with no
not-found handling of its own. -/
def get_event (db : List (String × Doc)) (event_id : String) : Except DsErr Doc :=
  CouchDB.read db event_id

end EventRepository

/-- C8 counterexample: a read that targets an absent id does not surface a
not-found condition — read_doc quietly returns None and read raises a generic
TypeError, and the same happens to get_event. -/
theorem read_absent_counterexample :
    CouchDB.read_doc ([] : List (String × Doc)) "absent" = none ∧
    CouchDB.read ([] : List (String × Doc)) "absent"
      = Except.error (DsErr.typeError "NoneType object is unsubscriptable") ∧
    surfacesNotFound (EventRepository.get_event ([] : List (String × Doc)) "absent")
      = false :=
  ⟨rfl, rfl, rfl⟩

/-- C8 amended: queries do surface the distinct not-found condition — a query
against a structurally absent target and a query returning no documents both
raise NotFound, which is distinguishable by construction from the BadRequest
precondition error — but a read targeting an absent id instead returns None
from read_doc, and the object-building read raises a generic type error
rather than a not-found condition. -/
theorem datastore_notfound (db : List (String × Doc)) (criteriaStr : String)
    (query : Doc → Bool) (object_id : String) :
    surfacesNotFound (CouchDB.find_docs none criteriaStr query) = true ∧
    ((db.filter (fun p => query p.2)).length = 0 →
      surfacesNotFound (CouchDB.find_docs (some db) criteriaStr query) = true) ∧
    (∀ m m' : String, DsErr.notFound m ≠ DsErr.badRequest m') ∧
    (object_id ∉ keys db →
      CouchDB.read_doc db object_id = none ∧
      CouchDB.read db object_id
        = Except.error (DsErr.typeError "NoneType object is unsubscriptable") ∧
      surfacesNotFound (CouchDB.read db object_id) = false) := by
  refine ⟨rfl, ?_, ?_, ?_⟩
  · intro hempty
    simp [CouchDB.find_docs, surfacesNotFound, hempty]
  · intro m m' hc
    cases hc
  · intro habs
    have hlook : alookup db object_id = none := alookup_eq_none habs
    refine ⟨hlook, ?_, ?_⟩ <;>
      simp [CouchDB.read, CouchDB.read_doc, surfacesNotFound, hlook]

/-- C8 amended witness: at a concrete store with one document, an empty query
result raises NotFound and a read of a missing id raises the type error. -/
theorem datastore_notfound_witness :
    surfacesNotFound
      (CouchDB.find_docs (some [("id1", ⟨"Event", []⟩)]) "[]" (fun _ => false)) = true ∧
    CouchDB.read [("id1", ⟨"Event", []⟩)] "missing"
      = Except.error (DsErr.typeError "NoneType object is unsubscriptable") := by
  have h := datastore_notfound [("id1", ⟨"Event", []⟩)] "[]" (fun _ => false) "missing"
  exact ⟨h.2.1 (by decide), (h.2.2.2 (by decide)).2.1⟩

end Pyon
